import Mathlib

/-!
Shallow embedding of the shunting-yard expression program
(`src/shunting.h`, `src/shunteval.c`): the tokenizer `read_input`, the
infix-to-postfix converter `shunting_yard`, and the postfix evaluator from
the `main` loop of `shunteval.c`.  Queues are `List` read head-first (head =
queue head), stacks are `List` with head = top.  The C `die(msg)` calls
become explicit error values; C undefined behaviour reachable in the
evaluator (unchecked division by zero, a null-pointer dereference on an
unchecked pop) is modelled by dedicated crash markers distinct from every
`die` diagnostic.
-/

/-- TokenType / Operator from `shunting.h`: `OPERATOR_PLUS .. OPERATOR_EXP`. -/
inductive Operator
  | plus
  | minus
  | times
  | divide
  | exp
deriving DecidableEq, Repr

/-- The `PRECEDENCE` table of `shunting.h` (`{0, 0, 1, 1, 2}`). -/
def PRECEDENCE : Operator → Nat
  | .plus => 0
  | .minus => 0
  | .times => 1
  | .divide => 1
  | .exp => 2

/-- The `RIGHTASSOC` table of `shunting.h` (`{0, 0, 0, 0, 1}`). -/
def RIGHTASSOC : Operator → Bool
  | .plus => false
  | .minus => false
  | .times => false
  | .divide => false
  | .exp => true

/-- The `Unary` enum: `UNARY_MINUS` only. -/
inductive Unary
  | minus
deriving DecidableEq, Repr

/-- The `Parenthesis` enum: `PARENTHESIS_OPEN`, `PARENTHESIS_CLOSE`. -/
inductive Parenthesis
  | OPEN
  | CLOSE
deriving DecidableEq, Repr

/-- The `Token` tagged union of `shunting.h`.  The `v_number` payload is a
C `long long`; values are carried as `Int`, with two's-complement wrapping
applied explicitly where the source arithmetic can overflow. -/
inductive Token
  | number (v : Int)
  | operator (op : Operator)
  | unary (u : Unary)
  | parenthesis (p : Parenthesis)
deriving DecidableEq, Repr

/-- True exactly on parenthesis tokens. -/
def isParen : Token → Bool
  | .parenthesis _ => true
  | _ => false

/-- Mirrors the C test `type == TOKEN_PARENTHESIS && v_parenthesis == PARENTHESIS_OPEN`. -/
def isOpen : Token → Bool
  | .parenthesis .OPEN => true
  | _ => false

/-- Mirrors the C test `type == TOKEN_PARENTHESIS && v_parenthesis == PARENTHESIS_CLOSE`. -/
def isClose : Token → Bool
  | .parenthesis .CLOSE => true
  | _ => false

/-- True exactly on binary operator tokens. -/
def isOperatorTok : Token → Bool
  | .operator _ => true
  | _ => false

/-- The tokenizer's only failure: `die("Unexpected character.")` in `parse_char`. -/
inductive TokenizeError
  | unexpectedCharacter
deriving DecidableEq, Repr

/-- The converter's failures: `die("Unmatched closing parenthesis.")` and
`die("Unmatched opening parenthesis.")` in `shunting_yard`. -/
inductive ConvertError
  | unmatchedClosing
  | unmatchedOpening
deriving DecidableEq, Repr

/-- The evaluator's outcomes other than a clean result.  `stackEmpty` and
`remainingOperands` are the `die("Stack empty.")` / `die("Remaining operands.")`
diagnostics of `shunteval.c`.  `ubDivisionByZero` marks the undefined C
behaviour of `a->v_number / b->v_number` with a zero divisor (the source has
no zero check: the process crashes, it prints no diagnostic).  `ubNullDeref`
marks the undefined behaviour of the unary branch, which calls `stack_pop`
without a null check and dereferences the result. -/
inductive EvalError
  | stackEmpty
  | remainingOperands
  | ubDivisionByZero
  | ubNullDeref
deriving DecidableEq, Repr

instance {ε α : Type} [DecidableEq ε] [DecidableEq α] : DecidableEq (Except ε α) := fun a b =>
  match a, b with
  | .ok x, .ok y => decidable_of_iff (x = y) (by simp)
  | .error e, .error f => decidable_of_iff (e = f) (by simp)
  | .ok _, .error _ => isFalse (by simp)
  | .error _, .ok _ => isFalse (by simp)

/-- Two's-complement wraparound of a C `long long` (64-bit). -/
def wrap64 (n : Int) : Int :=
  (n + 2 ^ 63) % 2 ^ 64 - 2 ^ 63

/-- The `parse_char` switch of `shunting.h`: single characters to operator and
parenthesis tokens, anything else `die("Unexpected character.")`. -/
def parse_char (c : Char) : Except TokenizeError Token :=
  if c = '+' then .ok (.operator .plus)
  else if c = '-' then .ok (.operator .minus)
  else if c = '*' then .ok (.operator .times)
  else if c = '/' then .ok (.operator .divide)
  else if c = '^' then .ok (.operator .exp)
  else if c = '(' then .ok (.parenthesis .OPEN)
  else if c = ')' then .ok (.parenthesis .CLOSE)
  else .error .unexpectedCharacter

/-- The condition under which `read_input` sets `lastreadop = true` after the
`parse_char` branch: `t->type == TOKEN_OPERATOR || (t->type == TOKEN_PARENTHESIS
&& t->v_parenthesis == PARENTHESIS_OPEN)`. -/
def opensOperand (t : Token) : Bool :=
  match t with
  | .operator _ => true
  | .parenthesis .OPEN => true
  | _ => false

/-- The inner digit-accumulation loop of `read_input`
(`do { number = number*10 + (*c - '0'); } while(*(++c) && '1' <= *c && *c <= '9');`),
entered after the first digit has already been folded into `n`.  Note the
continuation test of the source accepts only characters 1 through 9 (the
lower bound is the character 1, not 0); each step wraps in
64-bit arithmetic.  Returns the accumulated value and the unconsumed rest. -/
def scanNumber (n : Int) : List Char → Int × List Char
  | [] => (n, [])
  | c :: cs =>
    if '1' ≤ c ∧ c ≤ '9' then
      scanNumber (wrap64 (n * 10 + ((c.toNat : Int) - ('0'.toNat : Int)))) cs
    else (n, c :: cs)

/-- The loop body of `read_input`, with an explicit fuel argument standing for
the loop's termination metric (each iteration consumes at least one character,
so fuel equal to the remaining input length never runs out; the fuel-exhausted
branch is unreachable from `read_input`).  `lastreadop` is the lookback flag of
the source: a leading `-` while it is set becomes a `UNARY_MINUS` token and
leaves the flag unchanged; a digit starts the accumulation loop and clears it;
everything else goes through `parse_char`. -/
def read_input_go : Nat → Bool → List Char → Except TokenizeError (List Token)
  | _, _, [] => .ok []
  | 0, _, _ :: _ => .ok []
  | fuel + 1, lastreadop, c :: cs =>
    if lastreadop ∧ c = '-' then
      match read_input_go fuel lastreadop cs with
      | .error e => .error e
      | .ok ts => .ok (Token.unary .minus :: ts)
    else if '0' ≤ c ∧ c ≤ '9' then
      let r := scanNumber (wrap64 (0 * 10 + ((c.toNat : Int) - ('0'.toNat : Int)))) cs
      match read_input_go fuel false r.2 with
      | .error e => .error e
      | .ok ts => .ok (Token.number r.1 :: ts)
    else
      match parse_char c with
      | .error e => .error e
      | .ok t =>
        match read_input_go fuel (opensOperand t) cs with
        | .error e => .error e
        | .ok ts => .ok (t :: ts)

/-- The tokenizer `read_input` of `shunting.h`.  In the source `lastreadop` is a
local initialised to `true`; it is exposed here as the first argument so the
loop state is explicit.  The produced list is the input queue head-first. -/
def read_input (lastreadop : Bool) (cs : List Char) : Except TokenizeError (List Token) :=
  read_input_go cs.length lastreadop cs

/-- The operator-popping loop inside the `TOKEN_OPERATOR` branch of `shunting_yard`:
while the stack top is an operator `top` with
`PRECEDENCE[top] > PRECEDENCE[op] || (PRECEDENCE[top] == PRECEDENCE[op] && !RIGHTASSOC[top])`,
pop it to the output.  Returns (tokens popped to output, in pop order; the
remaining stack). -/
def pop_operators (op : Operator) : List Token → List Token × List Token
  | [] => ([], [])
  | t :: rest =>
    match t with
    | Token.operator top =>
      if PRECEDENCE top > PRECEDENCE op ∨
          (PRECEDENCE top = PRECEDENCE op ∧ RIGHTASSOC top = false) then
        let r := pop_operators op rest
        (t :: r.1, r.2)
      else ([], t :: rest)
    | _ => ([], t :: rest)

/-- The pop condition of the spec, as a predicate on a single stack entry: the
entry is an Operator `top` with `precedence(top) > precedence(op)`, or with
`precedence(top) == precedence(op)` and `top` left-associative. -/
def shouldPop (op : Operator) (t : Token) : Bool :=
  match t with
  | .operator top =>
    decide (PRECEDENCE top > PRECEDENCE op) ||
      (decide (PRECEDENCE top = PRECEDENCE op) && !RIGHTASSOC top)
  | _ => false

/-- True on the tokens the round-trip property counts: Number, Operator and
Unary tokens, i.e. everything except parentheses. -/
def keep (t : Token) : Bool := !(isParen t)

/-- The close-parenthesis drain of `shunting_yard`: pop stack entries to the
output until the top is an open parenthesis, pop and discard that parenthesis;
if the stack empties first, `die("Unmatched closing parenthesis.")`.
Returns (tokens moved to output, remaining stack below the open parenthesis). -/
def pop_until_open : List Token → Except ConvertError (List Token × List Token)
  | [] => .error .unmatchedClosing
  | t :: rest =>
    if isOpen t then .ok ([], rest)
    else
      match pop_until_open rest with
      | .error e => .error e
      | .ok r => .ok (t :: r.1, r.2)

/-- One iteration of the main `while` loop of `shunting_yard`, for token `t` with
current output queue `out` (head-first) and working stack `stack` (head = top):
numbers go to the output, an operator first runs `pop_operators` and is then
pushed, an open parenthesis is pushed, a close parenthesis runs the
`pop_until_open` drain, a unary token is pushed unconditionally. -/
def shunting_step (t : Token) (out stack : List Token) :
    Except ConvertError (List Token × List Token) :=
  match t with
  | .number _ => .ok (out ++ [t], stack)
  | .operator op =>
    let r := pop_operators op stack
    .ok (out ++ r.1, t :: r.2)
  | .parenthesis .OPEN => .ok (out, t :: stack)
  | .parenthesis .CLOSE =>
    match pop_until_open stack with
    | .error e => .error e
    | .ok r => .ok (out ++ r.1, r.2)
  | .unary _ => .ok (out, t :: stack)

/-- The main `while(t = queue_remove(input))` loop of `shunting_yard`. -/
def shunting_loop : List Token → List Token → List Token →
    Except ConvertError (List Token × List Token)
  | [], out, stack => .ok (out, stack)
  | t :: ts, out, stack =>
    match shunting_step t out stack with
    | .error e => .error e
    | .ok r => shunting_loop ts r.1 r.2

/-- The end-of-input drain of `shunting_yard`: pop every remaining stack entry
to the output; if any popped entry is an open parenthesis,
`die("Unmatched opening parenthesis.")`. -/
def drain : List Token → Except ConvertError (List Token)
  | [] => .ok []
  | t :: rest =>
    if isOpen t then .error .unmatchedOpening
    else
      match drain rest with
      | .error e => .error e
      | .ok ts => .ok (t :: ts)

/-- The converter `shunting_yard` of `shunting.h`: run the main loop from an
empty output queue and an empty stack, then the end-of-input drain. -/
def shunting_yard (input : List Token) : Except ConvertError (List Token) :=
  match shunting_loop input [] [] with
  | .error e => .error e
  | .ok r =>
    match drain r.2 with
    | .error e => .error e
    | .ok d => .ok (r.1 ++ d)

/-- Models `(long long) powl(a, b)` as called by the evaluator's `OPERATOR_EXP`
case.  Faithful where the `long double` computation is exact: nonnegative
exponents with results in 64-bit range (all uses in this development).  For a
negative exponent the true result has magnitude at most 1 and truncates toward
zero.  Rounding at extreme magnitudes and the undefined conversion of
out-of-range results are not modelled. -/
def powl_trunc (a b : Int) : Int :=
  if 0 ≤ b then a ^ b.toNat
  else if a = 1 then 1
  else if a = -1 then (if b % 2 = 0 then 1 else -1)
  else 0

/-- The `switch(t->v_operator)` of the evaluator with left operand `a` and right
operand `b`.  The `OPERATOR_DIVIDE` case computes `a / b` (C truncated
division) with no zero check: a zero divisor is undefined behaviour, modelled
by the `ubDivisionByZero` crash marker. -/
def apply_operator (op : Operator) (a b : Int) : Except EvalError Int :=
  match op with
  | .plus => .ok (a + b)
  | .minus => .ok (a - b)
  | .times => .ok (a * b)
  | .divide => if b = 0 then .error .ubDivisionByZero else .ok (Int.tdiv a b)
  | .exp => .ok (powl_trunc a b)

/-- One iteration of the evaluator loop in `main` of `shunteval.c`, on operand
stack `stack` (head = top).  A number is pushed; an operator pops `b` then `a`
(`die("Stack empty.")` if either pop fails) and pushes the computed value; a
unary token pops without any null check — on an empty stack the source
dereferences the null pointer, modelled by `ubNullDeref` — and pushes the
negation; any other token type falls through all three `if` branches and is
skipped. -/
def eval_step (stack : List Int) (t : Token) : Except EvalError (List Int) :=
  match t with
  | .number v => .ok (v :: stack)
  | .operator op =>
    match stack with
    | b :: a :: rest =>
      match apply_operator op a b with
      | .error e => .error e
      | .ok v => .ok (v :: rest)
    | _ => .error .stackEmpty
  | .unary u =>
    match stack with
    | a :: rest =>
      match u with
      | .minus => .ok (-a :: rest)
    | [] => .error .ubNullDeref
  | .parenthesis _ => .ok stack

/-- The `while(t = queue_remove(&output))` evaluator loop. -/
def eval_loop : List Token → List Int → Except EvalError (List Int)
  | [], stack => .ok stack
  | t :: ts, stack =>
    match eval_step stack t with
    | .error e => .error e
    | .ok s => eval_loop ts s

/-- The result extraction after the evaluator loop:
`result = stack_pop(&eval_stack); if(eval_stack.top) die("Remaining operands.");`.
On an empty stack `stack_pop` returns null and the remaining-operands test sees
an empty stack, so no diagnostic fires and no value is produced: result `none`. -/
def eval_finish : List Int → Except EvalError (Option Int)
  | [] => .ok none
  | v :: rest =>
    match rest with
    | [] => .ok (some v)
    | _ :: _ => .error .remainingOperands

/-- The whole evaluator of `shunteval.c`: loop then result extraction. -/
def evaluate (ts : List Token) : Except EvalError (Option Int) :=
  match eval_loop ts [] with
  | .error e => .error e
  | .ok stack => eval_finish stack

/-- Outcome of the full `shunteval` pipeline on one expression string. -/
inductive RunResult
  | tokenizeError (e : TokenizeError)
  | convertError (e : ConvertError)
  | evalError (e : EvalError)
  | result (v : Option Int)
deriving DecidableEq, Repr

/-- The pipeline of `main` in `shunteval.c`: `read_input` (with `lastreadop`
initialised to `true`), then `shunting_yard`, then the evaluator. -/
def run (s : String) : RunResult :=
  match read_input true s.toList with
  | .error e => .tokenizeError e
  | .ok input =>
    match shunting_yard input with
    | .error e => .convertError e
    | .ok output =>
      match evaluate output with
      | .error e => .evalError e
      | .ok v => .result v

/-! Helper lemmas. -/

theorem shouldPop_eq_true {op top : Operator} :
    shouldPop op (Token.operator top) = true ↔
      (PRECEDENCE top > PRECEDENCE op ∨
        (PRECEDENCE top = PRECEDENCE op ∧ RIGHTASSOC top = false)) := by
  simp [shouldPop]

theorem isOpen_eq_true_iff {t : Token} : isOpen t = true ↔ t = Token.parenthesis .OPEN := by
  cases t with
  | parenthesis p => cases p <;> simp [isOpen]
  | number v => simp [isOpen]
  | operator op => simp [isOpen]
  | unary u => simp [isOpen]

theorem keep_of_not_paren {t : Token} (ho : isOpen t = false) (hc : isClose t = false) :
    keep t = true := by
  cases t with
  | parenthesis p => cases p <;> simp_all [isOpen, isClose]
  | number v => simp [keep, isParen]
  | operator op => simp [keep, isParen]
  | unary u => simp [keep, isParen]

theorem pop_operators_eq (op : Operator) (st : List Token) :
    pop_operators op st = (st.takeWhile (shouldPop op), st.dropWhile (shouldPop op)) := by
  induction st with
  | nil => rfl
  | cons t rest ih =>
    cases t with
    | operator top =>
      by_cases h : PRECEDENCE top > PRECEDENCE op ∨
          (PRECEDENCE top = PRECEDENCE op ∧ RIGHTASSOC top = false)
      · have hb : shouldPop op (Token.operator top) = true := shouldPop_eq_true.mpr h
        simp [pop_operators, h, ih, List.takeWhile_cons, List.dropWhile_cons, hb]
      · have hb : shouldPop op (Token.operator top) = false := by
          cases hb : shouldPop op (Token.operator top) with
          | true => exact absurd (shouldPop_eq_true.mp hb) h
          | false => rfl
        simp [pop_operators, h, List.takeWhile_cons, List.dropWhile_cons, hb]
    | number v => simp [pop_operators, List.takeWhile_cons, List.dropWhile_cons, shouldPop]
    | unary u => simp [pop_operators, List.takeWhile_cons, List.dropWhile_cons, shouldPop]
    | parenthesis p => simp [pop_operators, List.takeWhile_cons, List.dropWhile_cons, shouldPop]

theorem pop_until_open_error_eq :
    ∀ {st : List Token} {e : ConvertError},
      pop_until_open st = .error e → e = .unmatchedClosing := by
  intro st
  induction st with
  | nil =>
    intro e h
    simp only [pop_until_open, Except.error.injEq] at h
    exact h.symm
  | cons t ts ih =>
    intro e h
    by_cases ho : isOpen t = true
    · simp [pop_until_open, ho] at h
    · rw [pop_until_open, if_neg ho] at h
      cases hrec : pop_until_open ts with
      | error e' =>
        rw [hrec] at h
        simp only [Except.error.injEq] at h
        exact h ▸ ih hrec
      | ok r =>
        rw [hrec] at h
        simp at h

theorem pop_until_open_error_iff (st : List Token) :
    pop_until_open st = .error .unmatchedClosing ↔ Token.parenthesis .OPEN ∉ st := by
  induction st with
  | nil => simp [pop_until_open]
  | cons t ts ih =>
    simp only [List.mem_cons, not_or]
    by_cases ho : isOpen t = true
    · have ht : t = Token.parenthesis .OPEN := isOpen_eq_true_iff.mp ho
      subst ht
      simp [pop_until_open, isOpen]
    · have ht : ¬ (Token.parenthesis Parenthesis.OPEN = t) := fun hc =>
        ho (isOpen_eq_true_iff.mpr hc.symm)
      rw [pop_until_open, if_neg ho]
      cases hrec : pop_until_open ts with
      | error e =>
        have he : e = .unmatchedClosing := pop_until_open_error_eq hrec
        subst he
        simp [ht, ih.mp hrec]
      | ok r =>
        have hmem : Token.parenthesis .OPEN ∈ ts := by
          by_contra hn
          rw [← ih] at hn
          rw [hn] at hrec
          cases hrec
        simp [hmem]

theorem pop_until_open_ok :
    ∀ {st p rest : List Token},
      pop_until_open st = .ok (p, rest) →
      st = p ++ Token.parenthesis .OPEN :: rest ∧ ∀ x ∈ p, isOpen x = false := by
  intro st
  induction st with
  | nil => intro p rest h; simp [pop_until_open] at h
  | cons t ts ih =>
    intro p rest h
    by_cases ho : isOpen t = true
    · have ht : t = Token.parenthesis .OPEN := isOpen_eq_true_iff.mp ho
      simp [pop_until_open, ho] at h
      obtain ⟨hp, hr⟩ := h
      subst hp; subst hr; subst ht
      exact ⟨rfl, by intro x hx; cases hx⟩
    · rw [pop_until_open, if_neg ho] at h
      cases hrec : pop_until_open ts with
      | error e => rw [hrec] at h; simp at h
      | ok r =>
        rw [hrec] at h
        simp only [Except.ok.injEq, Prod.mk.injEq] at h
        obtain ⟨hp, hr⟩ := h
        obtain ⟨hts, hall⟩ := ih (by rw [hrec])
        subst hp; subst hr
        constructor
        · rw [List.cons_append]
          exact congrArg (t :: ·) hts
        · intro x hx
          rcases List.mem_cons.mp hx with hx | hx
          · subst hx
            exact Bool.not_eq_true _ ▸ ho
          · exact hall x hx

theorem drain_error_eq :
    ∀ {st : List Token} {e : ConvertError}, drain st = .error e → e = .unmatchedOpening := by
  intro st
  induction st with
  | nil => intro e h; simp [drain] at h
  | cons t ts ih =>
    intro e h
    by_cases ho : isOpen t = true
    · rw [drain, if_pos ho] at h
      simp only [Except.error.injEq] at h
      exact h.symm
    · rw [drain, if_neg ho] at h
      cases hrec : drain ts with
      | error e' =>
        rw [hrec] at h
        simp only [Except.error.injEq] at h
        exact h ▸ ih hrec
      | ok d => rw [hrec] at h; simp at h

theorem drain_error_mem :
    ∀ {st : List Token} {e : ConvertError},
      drain st = .error e → Token.parenthesis .OPEN ∈ st := by
  intro st
  induction st with
  | nil => intro e h; simp [drain] at h
  | cons t ts ih =>
    intro e h
    by_cases ho : isOpen t = true
    · exact List.mem_cons.mpr (Or.inl (isOpen_eq_true_iff.mp ho).symm)
    · rw [drain, if_neg ho] at h
      cases hrec : drain ts with
      | error e' => exact List.mem_cons.mpr (Or.inr (ih hrec))
      | ok d => rw [hrec] at h; simp at h

theorem drain_mem_error :
    ∀ {st : List Token}, Token.parenthesis .OPEN ∈ st →
      drain st = .error .unmatchedOpening := by
  intro st
  induction st with
  | nil => intro h; cases h
  | cons t ts ih =>
    intro h
    by_cases ho : isOpen t = true
    · rw [drain, if_pos ho]
    · have ht : ¬ (Token.parenthesis Parenthesis.OPEN = t) := fun hc =>
        ho (isOpen_eq_true_iff.mpr hc.symm)
      have hm : Token.parenthesis .OPEN ∈ ts := by
        rcases List.mem_cons.mp h with hc | hm
        · exact absurd hc ht
        · exact hm
      rw [drain, if_neg ho, ih hm]

theorem drain_error_iff (st : List Token) (e : ConvertError) :
    drain st = .error e ↔ (e = .unmatchedOpening ∧ Token.parenthesis .OPEN ∈ st) := by
  constructor
  · intro h
    exact ⟨drain_error_eq h, drain_error_mem h⟩
  · rintro ⟨he, hm⟩
    subst he
    exact drain_mem_error hm

theorem drain_ok :
    ∀ {st d : List Token}, drain st = .ok d → d = st ∧ Token.parenthesis .OPEN ∉ st := by
  intro st
  induction st with
  | nil => intro d h; simp [drain] at h; simp [h]
  | cons t ts ih =>
    intro d h
    by_cases ho : isOpen t = true
    · rw [drain, if_pos ho] at h; cases h
    · have ht : ¬ (Token.parenthesis Parenthesis.OPEN = t) := fun hc =>
        ho (isOpen_eq_true_iff.mpr hc.symm)
      rw [drain, if_neg ho] at h
      cases hrec : drain ts with
      | error e => rw [hrec] at h; cases h
      | ok d' =>
        rw [hrec] at h
        simp only [Except.ok.injEq] at h
        obtain ⟨hd, hnm⟩ := ih (by rw [hrec])
        subst hd
        subst h
        refine ⟨rfl, ?_⟩
        intro hc
        rcases List.mem_cons.mp hc with hc | hc
        · exact ht hc
        · exact hnm hc

theorem keep_values :
    (∀ v : Int, keep (Token.number v) = true) ∧
    (∀ op : Operator, keep (Token.operator op) = true) ∧
    (∀ u : Unary, keep (Token.unary u) = true) ∧
    (∀ p : Parenthesis, keep (Token.parenthesis p) = false) := by
  refine ⟨fun v => rfl, fun op => rfl, fun u => rfl, fun p => rfl⟩

theorem mem_dropWhile_imp_mem {p : Token → Bool} :
    ∀ {l : List Token} {x : Token}, x ∈ l.dropWhile p → x ∈ l := by
  intro l
  induction l with
  | nil => intro x h; simp [List.dropWhile] at h
  | cons a as ih =>
    intro x h
    rw [List.dropWhile_cons] at h
    by_cases ha : p a = true
    · rw [if_pos ha] at h
      exact List.mem_cons.mpr (Or.inr (ih h))
    · rw [if_neg ha] at h
      exact h

theorem takeWhile_shouldPop_filter (op : Operator) (st : List Token) :
    (st.takeWhile (shouldPop op)).filter keep = st.takeWhile (shouldPop op) := by
  apply List.filter_eq_self.mpr
  intro x hx
  have hp := List.mem_takeWhile_imp hx
  cases x with
  | operator o => rfl
  | number v => simp [shouldPop] at hp
  | unary u => simp [shouldPop] at hp
  | parenthesis q => simp [shouldPop] at hp

theorem shunting_step_invariant {t : Token} {out st out' st' : List Token}
    (h : shunting_step t out st = .ok (out', st'))
    (hout : ∀ x ∈ out, keep x = true) (hst : ∀ x ∈ st, isClose x = false) :
    ((↑out' : Multiset Token) + ↑(st'.filter keep)
        = (↑out : Multiset Token) + ↑(st.filter keep) + ↑([t].filter keep))
      ∧ (∀ x ∈ out', keep x = true) ∧ (∀ x ∈ st', isClose x = false) := by
  cases t with
  | number v =>
    simp only [shunting_step, Except.ok.injEq, Prod.mk.injEq] at h
    obtain ⟨h1, h2⟩ := h
    subst h1; subst h2
    refine ⟨?_, ?_, hst⟩
    · have hf : ([Token.number v].filter keep) = [Token.number v] := rfl
      rw [hf, ← Multiset.coe_add]
      abel
    · intro x hx
      rcases List.mem_append.mp hx with hx | hx
      · exact hout x hx
      · rcases List.mem_singleton.mp hx with rfl
        rfl
  | operator op =>
    simp only [shunting_step, Except.ok.injEq, Prod.mk.injEq] at h
    obtain ⟨h1, h2⟩ := h
    rw [pop_operators_eq] at h1 h2
    subst h1; subst h2
    refine ⟨?_, ?_, ?_⟩
    · have hsplit : st.takeWhile (shouldPop op) ++ st.dropWhile (shouldPop op) = st :=
        List.takeWhile_append_dropWhile (shouldPop op) st
      conv_rhs => rw [← hsplit]
      rw [List.filter_append]
      have hfo : ([Token.operator op].filter keep) = [Token.operator op] := rfl
      have hco : ((Token.operator op :: st.dropWhile (shouldPop op)).filter keep)
          = Token.operator op :: (st.dropWhile (shouldPop op)).filter keep := by
        simp [List.filter_cons, keep, isParen]
      rw [hfo, hco, takeWhile_shouldPop_filter]
      have e1 : ((out ++ st.takeWhile (shouldPop op) : List Token) : Multiset Token)
          = ↑out + ↑(st.takeWhile (shouldPop op)) := by rw [← Multiset.coe_add]
      have e2 : ((Token.operator op :: (st.dropWhile (shouldPop op)).filter keep : List Token) :
            Multiset Token)
          = ↑[Token.operator op] + ↑((st.dropWhile (shouldPop op)).filter keep) := by
        rw [← List.singleton_append, ← Multiset.coe_add]
      have e3 : ((st.takeWhile (shouldPop op) ++ (st.dropWhile (shouldPop op)).filter keep :
            List Token) : Multiset Token)
          = ↑(st.takeWhile (shouldPop op)) + ↑((st.dropWhile (shouldPop op)).filter keep) := by
        rw [← Multiset.coe_add]
      rw [e1, e2, e3]
      abel
    · intro x hx
      rcases List.mem_append.mp hx with hx | hx
      · exact hout x hx
      · have := List.mem_takeWhile_imp hx
        cases x with
        | operator o => rfl
        | number v => simp [shouldPop] at this
        | unary u => simp [shouldPop] at this
        | parenthesis q => simp [shouldPop] at this
    · intro x hx
      rcases List.mem_cons.mp hx with hx | hx
      · subst hx; rfl
      · exact hst x (mem_dropWhile_imp_mem hx)
  | unary u =>
    simp only [shunting_step, Except.ok.injEq, Prod.mk.injEq] at h
    obtain ⟨h1, h2⟩ := h
    subst h1; subst h2
    refine ⟨?_, hout, ?_⟩
    · have hfo : ([Token.unary u].filter keep) = [Token.unary u] := rfl
      have hco : ((Token.unary u :: st).filter keep) = Token.unary u :: st.filter keep := by
        simp [List.filter_cons, keep, isParen]
      rw [hfo, hco]
      have e2 : ((Token.unary u :: st.filter keep : List Token) : Multiset Token)
          = ↑[Token.unary u] + ↑(st.filter keep) := by
        rw [← List.singleton_append, ← Multiset.coe_add]
      rw [e2]
      abel
    · intro x hx
      rcases List.mem_cons.mp hx with hx | hx
      · subst hx; rfl
      · exact hst x hx
  | parenthesis q =>
    cases q with
    | OPEN =>
      simp only [shunting_step, Except.ok.injEq, Prod.mk.injEq] at h
      obtain ⟨h1, h2⟩ := h
      subst h1; subst h2
      refine ⟨?_, hout, ?_⟩
      · have hfo : ([Token.parenthesis Parenthesis.OPEN].filter keep) = [] := rfl
        have hco : ((Token.parenthesis Parenthesis.OPEN :: st).filter keep) = st.filter keep := by
          simp [List.filter_cons, keep, isParen]
        rw [hfo, hco]
        simp
      · intro x hx
        rcases List.mem_cons.mp hx with hx | hx
        · subst hx; rfl
        · exact hst x hx
    | CLOSE =>
      simp only [shunting_step] at h
      cases hrec : pop_until_open st with
      | error e => rw [hrec] at h; cases h
      | ok r =>
        rw [hrec] at h
        simp only [Except.ok.injEq, Prod.mk.injEq] at h
        obtain ⟨h1, h2⟩ := h
        subst h1; subst h2
        obtain ⟨hdec, hnopen⟩ := pop_until_open_ok (by rw [hrec])
        refine ⟨?_, ?_, ?_⟩
        · have hk1 : r.1.filter keep = r.1 := by
            apply List.filter_eq_self.mpr
            intro x hx
            refine keep_of_not_paren (hnopen x hx) (hst x ?_)
            rw [hdec]
            exact List.mem_append.mpr (Or.inl hx)
          have hfc : ([Token.parenthesis Parenthesis.CLOSE].filter keep) = [] := rfl
          rw [hfc]
          conv_rhs => rw [hdec]
          rw [List.filter_append]
          have hoc : ((Token.parenthesis Parenthesis.OPEN :: r.2).filter keep)
              = r.2.filter keep := by
            simp [List.filter_cons, keep, isParen]
          rw [hoc, hk1]
          have e1 : ((out ++ r.1 : List Token) : Multiset Token) = ↑out + ↑r.1 := by
            rw [← Multiset.coe_add]
          have e2 : ((r.1 ++ r.2.filter keep : List Token) : Multiset Token)
              = ↑r.1 + ↑(r.2.filter keep) := by
            rw [← Multiset.coe_add]
          rw [e1, e2]
          have e0 : (↑(([] : List Token)) : Multiset Token) = 0 := rfl
          rw [e0]
          abel
        · intro x hx
          rcases List.mem_append.mp hx with hx | hx
          · exact hout x hx
          · exact keep_of_not_paren (hnopen x hx)
              (hst x (by rw [hdec]; exact List.mem_append.mpr (Or.inl hx)))
        · intro x hx
          refine hst x ?_
          rw [hdec]
          exact List.mem_append.mpr (Or.inr (List.mem_cons.mpr (Or.inr hx)))

theorem shunting_loop_invariant :
    ∀ {ts out st out' st' : List Token},
      shunting_loop ts out st = .ok (out', st') →
      (∀ x ∈ out, keep x = true) → (∀ x ∈ st, isClose x = false) →
      ((↑out' : Multiset Token) + ↑(st'.filter keep)
          = (↑out : Multiset Token) + ↑(st.filter keep) + ↑(ts.filter keep))
        ∧ (∀ x ∈ out', keep x = true) ∧ (∀ x ∈ st', isClose x = false) := by
  intro ts
  induction ts with
  | nil =>
    intro out st out' st' h hout hst
    simp only [shunting_loop, Except.ok.injEq, Prod.mk.injEq] at h
    obtain ⟨h1, h2⟩ := h
    subst h1; subst h2
    refine ⟨by simp, hout, hst⟩
  | cons t ts ih =>
    intro out st out' st' h hout hst
    cases hstep : shunting_step t out st with
    | error e =>
      simp only [shunting_loop, hstep] at h
      exact Except.noConfusion h
    | ok r =>
      obtain ⟨r1, r2⟩ := r
      simp only [shunting_loop, hstep] at h
      obtain ⟨hinv, hro, hrs⟩ := shunting_step_invariant hstep hout hst
      obtain ⟨hinv2, ho2, hs2⟩ := ih h hro hrs
      refine ⟨?_, ho2, hs2⟩
      rw [hinv2, hinv]
      have h3 : ((↑((t :: ts).filter keep)) : Multiset Token)
          = ↑([t].filter keep) + ↑(ts.filter keep) := by
        conv_lhs => rw [← List.singleton_append]
        rw [List.filter_append, ← Multiset.coe_add]
      rw [h3]
      abel

/-- C8: for every input token sequence on which the converter succeeds, the
output sequence is exactly the multiset of the input's Number, Operator and
Unary tokens (parentheses removed, everything else only reordered), and the
output contains no parenthesis token.  This holds for every successful run, in
particular for every syntactically valid input with balanced parentheses as the
claim states. -/
theorem C8_token_multiset_preserved (input out : List Token)
    (h : shunting_yard input = .ok out) :
    (↑out : Multiset Token) = ↑(input.filter keep) ∧ ∀ x ∈ out, isParen x = false := by
  cases hloop : shunting_loop input [] [] with
  | error e =>
    simp only [shunting_yard, hloop] at h
    exact Except.noConfusion h
  | ok r =>
    obtain ⟨r1, r2⟩ := r
    cases hdr : drain r2 with
    | error e =>
      simp only [shunting_yard, hloop, hdr] at h
      exact Except.noConfusion h
    | ok d =>
      simp only [shunting_yard, hloop, hdr, Except.ok.injEq] at h
      subst h
      obtain ⟨hd, hnm⟩ := drain_ok hdr
      rw [hd]
      obtain ⟨hinv, hok, hsc⟩ :=
        shunting_loop_invariant hloop (by intro x hx; cases hx) (by intro x hx; cases hx)
      have hinv2 : (↑r1 : Multiset Token) + ↑(r2.filter keep) = ↑(input.filter keep) := by
        simpa using hinv
      have hr2keep : ∀ x ∈ r2, keep x = true := by
        intro x hx
        have hxo : isOpen x = false := by
          cases hox : isOpen x with
          | false => rfl
          | true =>
            rw [isOpen_eq_true_iff.mp hox] at hx
            exact absurd hx hnm
        exact keep_of_not_paren hxo (hsc x hx)
      have hr2 : r2.filter keep = r2 := List.filter_eq_self.mpr hr2keep
      constructor
      · rw [← Multiset.coe_add, ← hr2]
        exact hinv2
      · intro x hx
        rcases List.mem_append.mp hx with hx | hx
        · have := hok x hx
          simpa [keep] using this
        · have := hr2keep x hx
          simpa [keep] using this

/-- C1: the claim fails on the code.  The digit-run continuation test in
`read_input` accepts only the characters 1 through 9, excluding 0, so a maximal digit run
with a non-leading `0` is split into several Number tokens: `"10"` tokenizes to
Number(1), Number(0) instead of a single Number(10), and evaluating `"10"`
consequently dies with `Remaining operands.`. -/
theorem C1_digit_run_split :
    read_input true "10".toList = .ok [Token.number 1, Token.number 0] ∧
    read_input true "10".toList ≠ .ok [Token.number 10] ∧
    run "10" = .evalError .remainingOperands := by
  refine ⟨by decide, by decide, by decide⟩

/-- C2: for "-5+3" the tokenizer produces Unary(-), Number(5), Operator(+),
Number(3); the converter produces Number(5), Number(3), Operator(+), Unary(-);
the evaluator returns -8; and the operator-precedence comparison only ever pops
Operator tokens, so a Unary token on the working stack is never popped by it
(only by the end-of-input or close-parenthesis drains). -/
theorem C2_unary_negation_scope :
    read_input true "-5+3".toList =
      .ok [Token.unary .minus, Token.number 5, Token.operator .plus, Token.number 3] ∧
    shunting_yard [Token.unary .minus, Token.number 5, Token.operator .plus, Token.number 3] =
      .ok [Token.number 5, Token.number 3, Token.operator .plus, Token.unary .minus] ∧
    run "-5+3" = .result (some (-8)) ∧
    ∀ (op : Operator) (st : List Token),
      ((pop_operators op st).1).all isOperatorTok = true := by
  refine ⟨by decide, by decide, by decide, ?_⟩
  intro op st
  rw [pop_operators_eq]
  apply List.all_eq_true.mpr
  intro x hx
  have hp := List.mem_takeWhile_imp hx
  cases x with
  | operator o => rfl
  | number v => simp [shouldPop] at hp
  | unary u => simp [shouldPop] at hp
  | parenthesis q => simp [shouldPop] at hp

/-- C3: the claim fails on the code.  The evaluator's Div case computes
`a->v_number / b->v_number` with no zero check, so a zero right operand is
undefined behaviour (a crash), not a reported DivisionByZero error — no such
diagnostic exists anywhere in the program.  Evaluating "1/0" reaches exactly
this unchecked division. -/
theorem C3_division_by_zero_unchecked :
    (∀ (a : Int) (rest : List Int),
      eval_step (0 :: a :: rest) (Token.operator .divide) = .error .ubDivisionByZero) ∧
    run "1/0" = .evalError .ubDivisionByZero := by
  refine ⟨fun a rest => rfl, by decide⟩

/-- C4: the claim fails on the code.  The evaluator's Unary branch pops without
a null check (`Token *a = stack_pop(&eval_stack);` then `-a->v_number`), so on
an empty operand stack it dereferences a null pointer instead of failing with
StackEmpty.  The expression "-" produces the postfix sequence [Unary(-)] and
reaches exactly this case. -/
theorem C4_unary_empty_stack_crash :
    eval_step [] (Token.unary .minus) = .error .ubNullDeref ∧
    eval_step [] (Token.unary .minus) ≠ .error .stackEmpty ∧
    read_input true "-".toList = .ok [Token.unary .minus] ∧
    shunting_yard [Token.unary .minus] = .ok [Token.unary .minus] ∧
    run "-" = .evalError .ubNullDeref := by
  exact ⟨rfl, by decide, by decide, by decide, by decide⟩

/-- C5: on an Operator token the converter pops exactly the maximal prefix of
the working stack consisting of Operator entries with strictly higher
precedence, or equal precedence and left associativity (`shouldPop`), moves it
to the output, and then pushes the incoming operator; equal-precedence
right-associative operators are not popped, so "2^3^2" converts to the postfix
2 3 2 ^ ^ and evaluates to 512. -/
theorem C5_operator_pop_rule :
    (∀ (op : Operator) (st : List Token),
      pop_operators op st = (st.takeWhile (shouldPop op), st.dropWhile (shouldPop op))) ∧
    (∀ (op : Operator) (out st : List Token),
      shunting_step (Token.operator op) out st =
        .ok (out ++ st.takeWhile (shouldPop op),
          Token.operator op :: st.dropWhile (shouldPop op))) ∧
    read_input true "2^3^2".toList =
      .ok [Token.number 2, Token.operator .exp, Token.number 3, Token.operator .exp,
        Token.number 2] ∧
    shunting_yard [Token.number 2, Token.operator .exp, Token.number 3, Token.operator .exp,
        Token.number 2] =
      .ok [Token.number 2, Token.number 3, Token.number 2, Token.operator .exp,
        Token.operator .exp] ∧
    run "2^3^2" = .result (some 512) := by
  refine ⟨pop_operators_eq, ?_, by decide, by decide, by decide⟩
  intro op out st
  simp [shunting_step, pop_operators_eq]

/-- C6: the evaluator pops the right operand `b` first and the left operand `a`
second (so the earlier-pushed value is the left operand), and equal-precedence
left-associative operators group left-to-right: "8/4/2" converts to the postfix
8 4 / 2 / and evaluates to (8/4)/2 = 1. -/
theorem C6_left_assoc_division :
    (∀ (op : Operator) (b a : Int) (rest : List Int),
      eval_step (b :: a :: rest) (Token.operator op) =
        match apply_operator op a b with
        | .error e => .error e
        | .ok v => .ok (v :: rest)) ∧
    read_input true "8/4/2".toList =
      .ok [Token.number 8, Token.operator .divide, Token.number 4, Token.operator .divide,
        Token.number 2] ∧
    shunting_yard [Token.number 8, Token.operator .divide, Token.number 4,
        Token.operator .divide, Token.number 2] =
      .ok [Token.number 8, Token.number 4, Token.operator .divide, Token.number 2,
        Token.operator .divide] ∧
    run "8/4/2" = .result (some 1) := by
  exact ⟨fun op b a rest => rfl, by decide, by decide, by decide⟩

/-- C7: the converter fails with UnmatchedClosingParenthesis exactly when a
Close token's drain exhausts the working stack without meeting an Open
parenthesis — and a Close token hitting such a stack is the only way a single
conversion step can fail — and fails with UnmatchedOpeningParenthesis exactly
when the end-of-input drain meets an Open parenthesis.  Concretely, "(1+2"
fails with UnmatchedOpeningParenthesis and "1+2)" with
UnmatchedClosingParenthesis. -/
theorem C7_paren_errors :
    (∀ st : List Token,
      pop_until_open st = .error .unmatchedClosing ↔ Token.parenthesis .OPEN ∉ st) ∧
    (∀ (t : Token) (out st : List Token) (e : ConvertError),
      shunting_step t out st = .error e →
        t = Token.parenthesis .CLOSE ∧ e = .unmatchedClosing ∧
          Token.parenthesis .OPEN ∉ st) ∧
    (∀ (st : List Token) (e : ConvertError),
      drain st = .error e ↔ (e = .unmatchedOpening ∧ Token.parenthesis .OPEN ∈ st)) ∧
    run "(1+2" = .convertError .unmatchedOpening ∧
    run "1+2)" = .convertError .unmatchedClosing := by
  refine ⟨pop_until_open_error_iff, ?_, drain_error_iff, by decide, by decide⟩
  intro t out st e h
  cases t with
  | number v => simp [shunting_step] at h
  | operator op => simp [shunting_step] at h
  | unary u => simp [shunting_step] at h
  | parenthesis q =>
    cases q with
    | OPEN => simp [shunting_step] at h
    | CLOSE =>
      simp only [shunting_step] at h
      cases hrec : pop_until_open st with
      | error e2 =>
        simp only [hrec] at h
        have he2 : e2 = ConvertError.unmatchedClosing := pop_until_open_error_eq hrec
        subst he2
        simp only [Except.error.injEq] at h
        subst h
        exact ⟨rfl, rfl, (pop_until_open_error_iff st).mp hrec⟩
      | ok r =>
        simp only [hrec] at h
        exact Except.noConfusion h

/-- C7 witness: the step-failure characterization instantiated at a Close
parenthesis on an empty stack. -/
theorem C7_paren_errors_witness :
    shunting_step (Token.parenthesis .CLOSE) [] [] = .error .unmatchedClosing ∧
    (Token.parenthesis Parenthesis.CLOSE = Token.parenthesis Parenthesis.CLOSE ∧
      ConvertError.unmatchedClosing = ConvertError.unmatchedClosing ∧
      Token.parenthesis Parenthesis.OPEN ∉ ([] : List Token)) :=
  ⟨by decide,
    C7_paren_errors.2.1 (Token.parenthesis .CLOSE) [] [] ConvertError.unmatchedClosing
      (by decide)⟩

/-- C8 witness: the multiset-preservation theorem instantiated on the
successful conversion of 1 + 2. -/
theorem C8_token_multiset_preserved_witness :
    shunting_yard [Token.number 1, Token.operator .plus, Token.number 2] =
      .ok [Token.number 1, Token.number 2, Token.operator .plus] ∧
    ((↑[Token.number 1, Token.number 2, Token.operator .plus] : Multiset Token) =
        ↑(([Token.number 1, Token.operator .plus, Token.number 2]).filter keep) ∧
      ∀ x ∈ [Token.number 1, Token.number 2, Token.operator Operator.plus],
        isParen x = false) :=
  ⟨by decide,
    C8_token_multiset_preserved [Token.number 1, Token.operator .plus, Token.number 2]
      [Token.number 1, Token.number 2, Token.operator .plus] (by decide)⟩

/-- C9: a binary Operator token in the evaluator fails with StackEmpty whenever
the operand stack holds fewer than two values, and "+5" — tokenized as a
leading binary + followed by 5, postfix 5 + — fails with StackEmpty during
evaluation. -/
theorem C9_binary_stack_empty :
    (∀ op : Operator, eval_step [] (Token.operator op) = .error .stackEmpty) ∧
    (∀ (op : Operator) (b : Int), eval_step [b] (Token.operator op) = .error .stackEmpty) ∧
    read_input true "+5".toList = .ok [Token.operator .plus, Token.number 5] ∧
    shunting_yard [Token.operator .plus, Token.number 5] =
      .ok [Token.number 5, Token.operator .plus] ∧
    run "+5" = .evalError .stackEmpty := by
  exact ⟨fun op => rfl, fun op b => rfl, by decide, by decide, by decide⟩

/-- C10: on an empty postfix sequence the evaluator's final extraction pops
from the empty operand stack and yields no value: no integer result is
produced, and neither StackEmpty nor RemainingOperands nor any other error is
raised.  The empty expression string reaches exactly this case. -/
theorem C10_empty_postfix_no_result :
    eval_finish [] = .ok none ∧
    evaluate [] = .ok none ∧
    run "" = .result none := by
  exact ⟨rfl, rfl, by decide⟩
